import Mathlib

/-!
Shallow embedding of the starcoin ledger-sync core:
the two-tier storage composite (`src/storage/src/storage.rs`),
the accumulator node store (`src/storage/src/accumulator/mod.rs`),
and the block sync task / collector (`src/sync/src/tasks/block_sync_task.rs`).

Machine integers are modelled as `Nat` with explicit reduction modulo
`2 ^ 64` at the operations where u64 wrap-around matters.  Fallible Rust
calls returning `anyhow::Result` are modelled by `RRes`; a call that can
also panic (Rust `unwrap`) is modelled by `POut`.
-/

/-- Byte strings stored in repositories; each entry models one u8. -/
abbrev Bytes := List Nat

/-- Result of a fallible repository or chain operation (`anyhow::Result`). -/
inductive RRes (α : Type) where
  | ok : α → RRes α
  | err : String → RRes α
deriving DecidableEq

/-- Outcome of an operation that may also abort the thread (Rust `unwrap`). -/
inductive POut (α : Type) where
  | ok : α → POut α
  | err : String → POut α
  | panic : POut α
deriving DecidableEq

def RRes.isOk {α : Type} : RRes α → Bool
  | .ok _ => true
  | .err _ => false

def RRes.isErr {α : Type} : RRes α → Bool
  | .ok _ => false
  | .err _ => true

/-- Lift an error-or-value result into the panic-aware outcome type. -/
def RRes.toP {α : Type} : RRes α → POut α
  | .ok a => .ok a
  | .err e => .err e

def POut.isErr {α : Type} : POut α → Bool
  | .err _ => true
  | _ => false

/-- First-match association lookup (models map lookup on unique keys). -/
def assocGet {κ α : Type} [DecidableEq κ] (m : List (κ × α)) (k : κ) : Option α :=
  match m with
  | [] => none
  | (k2, v) :: rest => if k2 = k then some v else assocGet rest k

/-- Insert-or-replace (models `HashMap::insert` on unique-keyed lists). -/
def assocPut {κ α : Type} [DecidableEq κ] (m : List (κ × α)) (k : κ) (v : α) :
    List (κ × α) :=
  match m with
  | [] => [(k, v)]
  | (k2, v2) :: rest =>
    if k2 = k then (k, v) :: rest else (k2, v2) :: assocPut rest k v

/-- Delete the first binding of a key (models `HashMap::remove`). -/
def assocDel {κ α : Type} [DecidableEq κ] (m : List (κ × α)) (k : κ) :
    List (κ × α) :=
  match m with
  | [] => []
  | (k2, v) :: rest => if k2 = k then rest else (k2, v) :: assocDel rest k

def innerGetErrM : String := "inner repository get error"
def innerPutErrM : String := "inner repository put error"
def innerRemoveErrM : String := "inner repository remove error"
def removePersistErrM : String := "remove persistence error: "

/-- Model of a `dyn InnerRepository` engine: finite namespaced contents plus
injected per-key operation failures (an abstract engine may fail any call). -/
structure InnerRepo where
  data : List ((String × Bytes) × Bytes)
  failGet : List (String × Bytes)
  failPut : List (String × Bytes)
  failRemove : List (String × Bytes)
deriving DecidableEq

/-- `InnerRepository::get(prefix_name, key)`. -/
def InnerRepo.get (r : InnerRepo) (cf : String) (k : Bytes) :
    RRes (Option Bytes) :=
  if (cf, k) ∈ r.failGet then .err innerGetErrM
  else .ok (assocGet r.data (cf, k))

/-- `InnerRepository::put(prefix_name, key, value)`; returns the call result
and the engine state after the call. -/
def InnerRepo.put (r : InnerRepo) (cf : String) (k v : Bytes) :
    RRes Unit × InnerRepo :=
  if (cf, k) ∈ r.failPut then (.err innerPutErrM, r)
  else (.ok (), { r with data := assocPut r.data (cf, k) v })

/-- `InnerRepository::remove(prefix_name, key)`. -/
def InnerRepo.remove (r : InnerRepo) (cf : String) (k : Bytes) :
    RRes Unit × InnerRepo :=
  if (cf, k) ∈ r.failRemove then (.err innerRemoveErrM, r)
  else (.ok (), { r with data := assocDel r.data (cf, k) })

/-- The two-tier composite `Storage { cache, db, prefix_name }` from
`src/storage/src/storage.rs` (the column-family name field is `cfName`). -/
structure Storage where
  cache : InnerRepo
  db : InnerRepo
  cfName : String
deriving DecidableEq

/-- `Storage::get`: try the cache first; any non-Ok cache outcome falls
through to the durable store, an Ok outcome (hit or miss) is final. -/
def Storage.get (s : Storage) (k : Bytes) : RRes (Option Bytes) :=
  match s.cache.get s.cfName k with
  | .ok v => .ok v
  | .err _ => s.db.get s.cfName k

/-- `Storage::put`: write the durable store and `unwrap()` the result (a
durable-write failure panics), then write the cache. -/
def Storage.put (s : Storage) (k v : Bytes) : POut Unit × Storage :=
  match s.db.put s.cfName k v with
  | (.err _, db2) => (.panic, { s with db := db2 })
  | (.ok _, db2) =>
    match s.cache.put s.cfName k v with
    | (r, c2) => (r.toP, { s with db := db2, cache := c2 })

/-- `Storage::remove`: delete from the durable store; only on success is the
cache entry removed, otherwise the call bails with a persistence error. -/
def Storage.remove (s : Storage) (k : Bytes) : RRes Unit × Storage :=
  match s.db.remove s.cfName k with
  | (.ok _, db2) =>
    match s.cache.remove s.cfName k with
    | (r, c2) => (r, { s with db := db2, cache := c2 })
  | (.err e, db2) => (.err (removePersistErrM ++ e), { s with db := db2 })

/-- A failed inner-repository mutation leaves the engine unchanged. -/
theorem InnerRepo.put_err_state (r : InnerRepo) (cf : String) (k v : Bytes) :
    (r.put cf k v).1.isErr = true → (r.put cf k v).2 = r := by
  unfold InnerRepo.put
  split <;> simp [RRes.isErr]

/-- A failed inner-repository removal leaves the engine unchanged. -/
theorem InnerRepo.remove_err_state (r : InnerRepo) (cf : String) (k : Bytes) :
    (r.remove cf k).1.isErr = true → (r.remove cf k).2 = r := by
  unfold InnerRepo.remove
  split <;> simp [RRes.isErr]

def exKey : Bytes := [1, 2]
def exVal : Bytes := [7]

/-- Two-tier state whose cache is empty (no failures) while the durable
store holds a value for `exKey`: the cache miss is confirmed (Ok none). -/
def exCacheMissS : Storage :=
  { cache := { data := [], failGet := [], failPut := [], failRemove := [] },
    db := { data := [(("cf", [1, 2]), [7])], failGet := [], failPut := [],
            failRemove := [] },
    cfName := "cf" }

/-- Two-tier state where the durable store fails the put of `exKey`. -/
def exPutFailS : Storage :=
  { cache := { data := [(("cf", [1, 2]), [9])], failGet := [], failPut := [],
               failRemove := [] },
    db := { data := [], failGet := [], failPut := [("cf", [1, 2])],
            failRemove := [] },
    cfName := "cf" }

/-- Two-tier state where the durable store fails the remove of `exKey`,
while both tiers still hold the old value for `exKey`. -/
def exRemFailS : Storage :=
  { cache := { data := [(("cf", [1, 2]), [7])], failGet := [], failPut := [],
               failRemove := [] },
    db := { data := [(("cf", [1, 2]), [7])], failGet := [], failPut := [],
            failRemove := [("cf", [1, 2])] },
    cfName := "cf" }

/-- C3: `Storage::get` returns the cache's result as final whenever the
cache lookup completes without error — including a cache-confirmed miss —
and consults the durable store only when the cache lookup itself errors. -/
theorem storage_get_cache_first (s : Storage) (k : Bytes) :
    (∀ v, s.cache.get s.cfName k = .ok v → Storage.get s k = .ok v) ∧
    (∀ e, s.cache.get s.cfName k = .err e →
       Storage.get s k = s.db.get s.cfName k) := by
  constructor
  · intro v h
    unfold Storage.get
    rw [h]
  · intro e h
    unfold Storage.get
    rw [h]

/-- C3 witness: a cache-confirmed miss is final even though the durable
store holds a value for the key. -/
theorem storage_get_cache_first_witness :
    Storage.get exCacheMissS exKey = RRes.ok none :=
  (storage_get_cache_first exCacheMissS exKey).1 none (by decide)

/-- C2 counterexample: when the durable write fails, `Storage::put` panics
(`unwrap`), so no error value is returned to the caller; the whole state,
in particular the cache, is left unchanged. -/
theorem storage_put_counterexample :
    (Storage.put exPutFailS exKey exVal).1 = POut.panic ∧
    (Storage.put exPutFailS exKey exVal).1.isErr = false ∧
    (Storage.put exPutFailS exKey exVal).2 = exPutFailS := by
  decide

/-- C2 (amended): `Storage::put` writes the durable store first; if the
durable write fails the call panics — aborting without returning an error
value — with the cache (and the rest of the state) unchanged; only after
the durable write succeeds is the cache written, and the call returns the
cache write's result. -/
theorem storage_put_durable_first (s : Storage) (k v : Bytes) :
    ((s.db.put s.cfName k v).1.isErr = true →
       Storage.put s k v = (POut.panic, s)) ∧
    ((s.db.put s.cfName k v).1.isErr = false →
       (Storage.put s k v).1 = (s.cache.put s.cfName k v).1.toP ∧
       (Storage.put s k v).2.cache = (s.cache.put s.cfName k v).2 ∧
       (Storage.put s k v).2.db = (s.db.put s.cfName k v).2) := by
  have hst := InnerRepo.put_err_state s.db s.cfName k v
  unfold Storage.put
  rcases hdb : s.db.put s.cfName k v with ⟨r1, db2⟩
  rw [hdb] at hst
  cases r1 with
  | err e =>
    refine ⟨fun _ => ?_, fun hok => by simp [RRes.isErr] at hok⟩
    have hdb2 : db2 = s.db := hst (by simp [RRes.isErr])
    subst hdb2
    simp
  | ok a =>
    refine ⟨fun hfail => by simp [RRes.isErr] at hfail, fun _ => ?_⟩
    rcases hc : s.cache.put s.cfName k v with ⟨r2, c2⟩
    simp

/-- C2 witness: with a failing durable store, the put panics and leaves the
state unchanged. -/
theorem storage_put_durable_first_witness :
    Storage.put exPutFailS exKey exVal = (POut.panic, exPutFailS) :=
  (storage_put_durable_first exPutFailS exKey exVal).1 (by decide)

/-- C9: `Storage::remove` deletes from the durable store first; if the
durable delete fails the whole call fails, the cache entry is not removed
(state unchanged), and a subsequent get still observes the old value; only
after a successful durable delete is the cache entry removed. -/
theorem storage_remove_durable_first (s : Storage) (k : Bytes) :
    ((s.db.remove s.cfName k).1.isErr = true →
       (Storage.remove s k).1.isErr = true ∧
       (Storage.remove s k).2 = s ∧
       Storage.get (Storage.remove s k).2 k = Storage.get s k) ∧
    ((s.db.remove s.cfName k).1.isErr = false →
       (Storage.remove s k).1 = (s.cache.remove s.cfName k).1 ∧
       (Storage.remove s k).2.cache = (s.cache.remove s.cfName k).2 ∧
       (Storage.remove s k).2.db = (s.db.remove s.cfName k).2) := by
  have hst := InnerRepo.remove_err_state s.db s.cfName k
  unfold Storage.remove
  rcases hdb : s.db.remove s.cfName k with ⟨r1, db2⟩
  rw [hdb] at hst
  cases r1 with
  | err e =>
    refine ⟨fun _ => ?_, fun hok => by simp [RRes.isErr] at hok⟩
    have hdb2 : db2 = s.db := hst (by simp [RRes.isErr])
    subst hdb2
    simp [RRes.isErr]
  | ok a =>
    refine ⟨fun hfail => by simp [RRes.isErr] at hfail, fun _ => ?_⟩
    rcases hc : s.cache.remove s.cfName k with ⟨r2, c2⟩
    simp

/-- C9 witness: a failing durable delete fails the call, leaves the state
unchanged, and the key still reads its old value afterwards. -/
theorem storage_remove_durable_first_witness :
    (Storage.remove exRemFailS exKey).1.isErr = true ∧
    (Storage.remove exRemFailS exKey).2 = exRemFailS ∧
    Storage.get (Storage.remove exRemFailS exKey).2 exKey =
      Storage.get exRemFailS exKey :=
  (storage_remove_durable_first exRemFailS exKey).1 (by decide)

def U64MOD : Nat := 2 ^ 64

/-- Modelled from the spec: `NodeIndex` (from the external
`starcoin_accumulator` crate) is an ordinal identifying a node's position
in the accumulator's in-order traversal, held as a u64. -/
structure NodeIndex where
  index : Nat
deriving DecidableEq

/-- Modelled from the spec: `NodeIndex::new` wraps the in-order ordinal. -/
def NodeIndex.new (n : Nat) : NodeIndex := ⟨n⟩

/-- Modelled from the spec: `NodeIndex::to_inorder_index` returns the
in-order ordinal (a u64, hence reduced modulo 2^64). -/
def NodeIndex.to_inorder_index (i : NodeIndex) : Nat := i.index % U64MOD

/-- Big-endian 8-byte encoding of a u64 (`u64::to_be_bytes`). -/
def u64BeBytes (n : Nat) : Bytes :=
  [n / 2 ^ 56 % 256, n / 2 ^ 48 % 256, n / 2 ^ 40 % 256, n / 2 ^ 32 % 256,
   n / 2 ^ 24 % 256, n / 2 ^ 16 % 256, n / 2 ^ 8 % 256, n % 256]

/-- Big-endian read of a byte buffer (`ReadBytesExt::read_u64::<BigEndian>`
after the length has been checked to be 8). -/
def readU64Be (data : Bytes) : Nat :=
  data.foldl (fun acc b => acc * 256 + b) 0

def sliceLenErrM : String := "invalid slice length"

/-- Modelled from the spec: `ensure_slice_len_eq` (declared in the storage
crate outside the provided sources) fails on any buffer whose length is not
the expected one — "decoding a buffer of any other length fails". -/
def ensure_slice_len_eq (data : Bytes) (len : Nat) : RRes Unit :=
  if data.length = len then .ok () else .err sliceLenErrM

/-- `KeyCodec for NodeIndex :: encode_key`: the 8-byte big-endian encoding
of the in-order index. -/
def NodeIndex.encode_key (i : NodeIndex) : RRes Bytes :=
  .ok (u64BeBytes i.to_inorder_index)

/-- `KeyCodec for NodeIndex :: decode_key`: require exactly 8 bytes, then
read a big-endian u64. -/
def NodeIndex.decode_key (data : Bytes) : RRes NodeIndex :=
  match ensure_slice_len_eq data 8 with
  | .err e => .err e
  | .ok _ => .ok (NodeIndex.new (readU64Be data))

/-- C8: `encode_key` of a node index always yields exactly 8 bytes (the
big-endian encoding of its in-order index); `decode_key` of any buffer
whose length is not 8 fails with a length error; and decoding an encoded
index recovers the original index (round-trip over u64-valued indices). -/
theorem node_index_codec :
    (∀ i : NodeIndex, ∃ b : Bytes,
       NodeIndex.encode_key i = .ok b ∧ b.length = 8) ∧
    (∀ data : Bytes, data.length ≠ 8 →
       NodeIndex.decode_key data = .err sliceLenErrM) ∧
    (∀ i : NodeIndex, i.index < U64MOD →
       NodeIndex.decode_key (u64BeBytes i.to_inorder_index) = .ok i) := by
  refine ⟨fun i => ⟨u64BeBytes i.to_inorder_index, rfl, rfl⟩, ?_, ?_⟩
  · intro data hlen
    unfold NodeIndex.decode_key ensure_slice_len_eq
    simp [hlen]
  · intro i hlt
    obtain ⟨n⟩ := i
    have hlt2 : n < 2 ^ 64 := hlt
    have hn : NodeIndex.to_inorder_index ⟨n⟩ = n := by
      simp only [NodeIndex.to_inorder_index]
      exact Nat.mod_eq_of_lt hlt
    rw [hn]
    unfold NodeIndex.decode_key ensure_slice_len_eq u64BeBytes readU64Be
    simp only [List.length, List.foldl]
    norm_num [NodeIndex.new, NodeIndex.mk.injEq]
    omega

/-- C8 witness: the codec laws applied at the concrete index 300. -/
theorem node_index_codec_witness :
    NodeIndex.decode_key (u64BeBytes (NodeIndex.to_inorder_index ⟨300⟩)) =
      .ok ⟨300⟩ :=
  node_index_codec.2.2 ⟨300⟩ (by norm_num [U64MOD])

/-- Modelled from the spec: a 32-byte cryptographic hash value (external
`crypto::HashValue`). -/
structure HashValue where
  bytes : Bytes
deriving DecidableEq

def hashLenErrM : String := "invalid hash value length"

/-- `KeyCodec for HashValue :: encode_key` (`HashValue::to_vec`). -/
def HashValue.encode_key (h : HashValue) : RRes Bytes := .ok h.bytes

/-- `ValueCodec for HashValue :: decode_value` (`HashValue::from_slice`,
which fails on any buffer whose length is not 32). -/
def HashValue.decode_value (data : Bytes) : RRes HashValue :=
  if data.length = 32 then .ok ⟨data⟩ else .err hashLenErrM

/-- Modelled from the spec: `AccumulatorNode` (external crate), a
content-addressed Merkle node carrying a serialized body and its hash. -/
structure AccumulatorNode where
  hashBytes : Bytes
  body : Bytes
deriving DecidableEq

/-- Modelled from the spec: `AccumulatorNode::hash`, the node's own hash. -/
def AccumulatorNode.hash (n : AccumulatorNode) : HashValue := ⟨n.hashBytes⟩

/-- Modelled from the spec: the SCS serialization of a node
(`ValueCodec for AccumulatorNode :: encode_value`). -/
def AccumulatorNode.encode_value (n : AccumulatorNode) : RRes Bytes :=
  .ok (n.hashBytes ++ n.body)

/-- Modelled from the spec: SCS deserialization of a node
(`ValueCodec for AccumulatorNode :: decode_value`); fails when the buffer
is too short to hold the 32-byte hash. -/
def AccumulatorNode.decode_value (data : Bytes) : RRes AccumulatorNode :=
  if 32 ≤ data.length then .ok ⟨data.take 32, data.drop 32⟩
  else .err hashLenErrM

/-- `CodecStorage::get` over a byte repository: encode the key, read the
raw bytes, decode the value on a hit; every failure propagates. -/
def codecGet {κ β : Type} (encK : κ → RRes Bytes) (decV : Bytes → RRes β)
    (store : Storage) (k : κ) : RRes (Option β) :=
  match encK k with
  | .err e => .err e
  | .ok kb =>
    match store.get kb with
    | .err e => .err e
    | .ok none => .ok none
    | .ok (some vb) =>
      match decV vb with
      | .ok v => .ok (some v)
      | .err e => .err e

def ACCUMULATOR_INDEX_KEY_CF : String := "accumulator_index"
def ACCUMULATOR_NODE_KEY_CF : String := "accumulator_node"

/-- `AccumulatorStore`: an index column (position ordinal to hash) and a
node column (hash to node body), each a `CodecStorage` over a two-tier
`Storage` (`AccumulatorStore::two_new`). -/
structure AccumulatorStore where
  index_storage : Storage
  node_store : Storage

/-- `AccumulatorStore::two_new`. -/
def AccumulatorStore.two_new (cacheRepo dbRepo : InnerRepo) :
    AccumulatorStore :=
  { index_storage := ⟨cacheRepo, dbRepo, ACCUMULATOR_INDEX_KEY_CF⟩,
    node_store := ⟨cacheRepo, dbRepo, ACCUMULATOR_NODE_KEY_CF⟩ }

/-- The `index_storage.get(index)` call inside `AccumulatorStore::get`. -/
def AccumulatorStore.indexGet (st : AccumulatorStore) (index : NodeIndex) :
    RRes (Option HashValue) :=
  codecGet NodeIndex.encode_key HashValue.decode_value st.index_storage index

/-- `AccumulatorNodeReader::get_node(hash)`: a direct node-column lookup
whose absence is legitimate. -/
def AccumulatorStore.get_node (st : AccumulatorStore) (h : HashValue) :
    RRes (Option AccumulatorNode) :=
  codecGet HashValue.encode_key AccumulatorNode.decode_value st.node_store h

def danglingIndexErrM : String := "get accumulator node index is null"

/-- `AccumulatorNodeReader::get(index)` for `AccumulatorStore`: `unwrap`
the index lookup (an index-read failure panics), bail when the mapping is
absent, otherwise look the mapped hash up in the node column. -/
def AccumulatorStore.get (st : AccumulatorStore) (index : NodeIndex) :
    POut (Option AccumulatorNode) :=
  match st.indexGet index with
  | .err _ => .panic
  | .ok none => .err danglingIndexErrM
  | .ok (some h) => (st.get_node h).toP

/-- C4: when the index-to-hash mapping is absent from the index store,
`AccumulatorStore::get(index)` fails with the dangling-index error and in
particular never returns Ok(None); when the mapping exists, it returns the
node-store lookup of the mapped hash. -/
theorem accumulator_get_index (st : AccumulatorStore) (index : NodeIndex) :
    (st.indexGet index = .ok none →
       st.get index = .err danglingIndexErrM ∧
       ∀ v : Option AccumulatorNode, st.get index ≠ .ok v) ∧
    (∀ h, st.indexGet index = .ok (some h) →
       st.get index = (st.get_node h).toP) := by
  constructor
  · intro hnone
    unfold AccumulatorStore.get
    rw [hnone]
    exact ⟨rfl, fun v hv => by cases hv⟩
  · intro h hsome
    unfold AccumulatorStore.get
    rw [hsome]

/-- A concrete accumulator store whose index column has no mapping for any
index while the node column is also empty (both tiers empty, no injected
failures). -/
def exEmptyAccStore : AccumulatorStore :=
  AccumulatorStore.two_new
    { data := [], failGet := [], failPut := [], failRemove := [] }
    { data := [], failGet := [], failPut := [], failRemove := [] }

/-- C4 witness: on the empty store, looking up index 3 fails with the
dangling-index error rather than returning Ok(None). -/
theorem accumulator_get_index_witness :
    AccumulatorStore.get exEmptyAccStore ⟨3⟩ = .err danglingIndexErrM ∧
    ∀ v : Option AccumulatorNode,
      AccumulatorStore.get exEmptyAccStore ⟨3⟩ ≠ .ok v :=
  (accumulator_get_index exEmptyAccStore ⟨3⟩).1 (by decide)

structure BlockInfo where
  total_difficulty : Nat
deriving DecidableEq

/-- A ledger block: identifier, header timestamp and difficulty (the
fields this core reads). -/
structure Block where
  id : Nat
  timestamp : Nat
  difficulty : Nat
deriving DecidableEq

/-- `SyncBlockData { block, info, peer_id }`. -/
structure SyncBlockData where
  block : Block
  info : Option BlockInfo
  peer_id : Option Nat
deriving DecidableEq

/-- Modelled from the spec: a `MerkleAccumulator` snapshot (external
crate), reduced to its ordered leaf identifiers. -/
structure MerkleAccumulator where
  leaves : List Nat
deriving DecidableEq

/-- Modelled from the spec: `Accumulator::num_leaves`, the total leaf
count of the snapshot. -/
def MerkleAccumulator.num_leaves (a : MerkleAccumulator) : Nat :=
  a.leaves.length

/-- Modelled from the spec: `get_leaves(start, rightmost := false, max)`
reads up to `max` ordered leaf identifiers starting at `start`. -/
def MerkleAccumulator.get_leaves (a : MerkleAccumulator)
    (start maxSize : Nat) : List Nat :=
  (a.leaves.drop start).take maxSize

/-- u64 wrapping addition. -/
def wrapAdd (a b : Nat) : Nat := (a + b) % U64MOD

/-- u64 wrapping subtraction. -/
def wrapSub (a b : Nat) : Nat :=
  (a % U64MOD + (U64MOD - b % U64MOD)) % U64MOD

/-- `BlockSyncTask`: accumulator snapshot, cursor, fetcher handle,
local-first flag, local store handle and batch size.  The two
collaborators are modelled as functions from the requested identifier
list to their (fallible) reply. -/
structure BlockSyncTask where
  accumulator : MerkleAccumulator
  start_number : Nat
  fetcher : List Nat → RRes (List (Block × Option Nat))
  check_local_store : Bool
  local_store : List Nat → RRes (List (Option SyncBlockData))
  batch_size : Nat

/-- `BlockSyncTask::next`: advance the cursor by `batch_size` (u64
addition); no further state once the advanced cursor exceeds the
accumulator's leaf count. -/
def BlockSyncTask.next (t : BlockSyncTask) : Option BlockSyncTask :=
  let nextStart := wrapAdd t.start_number t.batch_size
  if nextStart > t.accumulator.num_leaves then none
  else some { t with start_number := nextStart }

/-- `BlockSyncTask::total_items`: the unchecked u64 difference
`num_leaves - start_number`. -/
def BlockSyncTask.total_items (t : BlockSyncTask) : Option Nat :=
  some (wrapSub t.accumulator.num_leaves t.start_number)

def fetchErrM : String := "fetcher error"

/-- A fetcher that always fails (never consulted in the examples). -/
def exNoFetcher : List Nat → RRes (List (Block × Option Nat)) :=
  fun _ => .err fetchErrM

/-- A local store that always fails (never consulted in the examples). -/
def exNoLocalStore : List Nat → RRes (List (Option SyncBlockData)) :=
  fun _ => .err fetchErrM

/-- A task at the u64 boundary: cursor 2^64 - 1, batch size 1, over a
five-leaf accumulator. -/
def exOverflowTask : BlockSyncTask :=
  { accumulator := ⟨[11, 12, 13, 14, 15]⟩,
    start_number := U64MOD - 1,
    fetcher := exNoFetcher,
    check_local_store := false,
    local_store := exNoLocalStore,
    batch_size := 1 }

/-- A mid-stream task: cursor 2, batch size 2, five leaves. -/
def exProgressTask : BlockSyncTask :=
  { accumulator := ⟨[11, 12, 13, 14, 15]⟩,
    start_number := 2,
    fetcher := exNoFetcher,
    check_local_store := false,
    local_store := exNoLocalStore,
    batch_size := 2 }

/-- The state `next` produces from `exProgressTask`. -/
def exProgressTaskNext : BlockSyncTask :=
  { exProgressTask with start_number := 4 }

/-- C5 counterexample: at cursor 2^64 - 1 with batch size 1, the u64 sum
wraps to 0, so `next` returns a state with cursor 0 even though
start_number + batch_size exceeds the five-leaf total - the claim's
"None exactly when the sum exceeds the leaf count" fails on u64 wrap. -/
theorem block_sync_next_counterexample :
    exOverflowTask.start_number + exOverflowTask.batch_size >
      exOverflowTask.accumulator.num_leaves ∧
    (BlockSyncTask.next exOverflowTask).map (fun t => t.start_number) =
      some 0 := by
  constructor
  · show 5 < U64MOD - 1 + 1
    norm_num [U64MOD]
  · rfl

/-- C5 (amended): provided `start_number + batch_size` does not overflow
u64, `next` returns none exactly when the sum exceeds the accumulator's
total leaf count, and otherwise returns a state whose cursor advanced by
exactly `batch_size` with every other field unchanged. -/
theorem block_sync_next_pagination (t : BlockSyncTask)
    (hof : t.start_number + t.batch_size < U64MOD) :
    (t.next = none ↔
       t.start_number + t.batch_size > t.accumulator.num_leaves) ∧
    (∀ t2, t.next = some t2 →
       t2.start_number = t.start_number + t.batch_size ∧
       t2.accumulator = t.accumulator ∧
       t2.fetcher = t.fetcher ∧
       t2.check_local_store = t.check_local_store ∧
       t2.local_store = t.local_store ∧
       t2.batch_size = t.batch_size) := by
  have hw : wrapAdd t.start_number t.batch_size =
      t.start_number + t.batch_size := Nat.mod_eq_of_lt hof
  by_cases hc : t.accumulator.num_leaves <
      t.start_number + t.batch_size
  · constructor
    · simp [BlockSyncTask.next, hw, hc]
    · intro t2 ht
      simp [BlockSyncTask.next, hw, hc] at ht
  · constructor
    · simp [BlockSyncTask.next, hw, hc]
    · intro t2 ht
      simp only [BlockSyncTask.next, hw] at ht
      rw [if_neg hc] at ht
      injection ht with ht2
      rw [← ht2]
      exact ⟨rfl, rfl, rfl, rfl, rfl, rfl⟩

/-- C5 witness: from cursor 2 with batch size 2 over five leaves, `next`
advances the cursor to exactly 4 and preserves every other field. -/
theorem block_sync_next_pagination_witness :
    exProgressTaskNext.start_number =
      exProgressTask.start_number + exProgressTask.batch_size ∧
    exProgressTaskNext.accumulator = exProgressTask.accumulator ∧
    exProgressTaskNext.fetcher = exProgressTask.fetcher ∧
    exProgressTaskNext.check_local_store =
      exProgressTask.check_local_store ∧
    exProgressTaskNext.local_store = exProgressTask.local_store ∧
    exProgressTaskNext.batch_size = exProgressTask.batch_size :=
  (block_sync_next_pagination exProgressTask (by decide)).2
    exProgressTaskNext rfl

/-- C10: `total_items` is the unchecked u64 difference
`num_leaves - start_number`: when the cursor is at most the leaf count it
is Some of the remaining leaf count; every state produced by `next` keeps
the cursor at most the leaf count (so the precondition is preserved along
lineages); and a task whose cursor exceeds the leaf count underflows,
yielding a wrapped value larger than the entire leaf count instead of
zero or None. -/
theorem total_items_underflow :
    (∀ t : BlockSyncTask, t.start_number ≤ t.accumulator.num_leaves →
       t.accumulator.num_leaves < U64MOD →
       t.total_items =
         some (t.accumulator.num_leaves - t.start_number)) ∧
    (∀ t t2 : BlockSyncTask, t.next = some t2 →
       t2.start_number ≤ t2.accumulator.num_leaves) ∧
    (∀ t : BlockSyncTask, t.accumulator.num_leaves < t.start_number →
       t.start_number < U64MOD →
       t.total_items =
         some (t.accumulator.num_leaves + U64MOD - t.start_number) ∧
       t.accumulator.num_leaves <
         t.accumulator.num_leaves + U64MOD - t.start_number) := by
  refine ⟨?_, ?_, ?_⟩
  · intro t hle hlt
    unfold BlockSyncTask.total_items wrapSub U64MOD
    unfold U64MOD at hlt
    congr 1
    omega
  · intro t t2 ht
    unfold BlockSyncTask.next at ht
    by_cases hc : t.accumulator.num_leaves <
        wrapAdd t.start_number t.batch_size
    · simp [hc] at ht
    · simp only [] at ht
      rw [if_neg hc] at ht
      injection ht with ht2
      rw [← ht2]
      exact Nat.le_of_not_lt hc
  · intro t hgt hlt
    unfold BlockSyncTask.total_items wrapSub U64MOD
    unfold U64MOD at hlt
    constructor
    · congr 1
      omega
    · omega

/-- C10 witness: at cursor 2 over five leaves, `total_items` reports the
three remaining leaves. -/
theorem total_items_underflow_witness :
    exProgressTask.total_items = some 3 :=
  total_items_underflow.1 exProgressTask (by decide) (by decide)

/-- One step of the fold inside `new_sub_task` that splits the zipped
batch into locally missing identifiers and a map of local hits. -/
def localPartStep (acc : List Nat × List (Nat × SyncBlockData))
    (p : Nat × Option SyncBlockData) :
    List Nat × List (Nat × SyncBlockData) :=
  match p.2 with
  | some d => (acc.1, assocPut acc.2 p.1 d)
  | none => (acc.1 ++ [p.1], acc.2)

/-- The partition fold of `new_sub_task`: `(no_exist_block_ids,
result_map)` built from the batch ids zipped with the local replies. -/
def localPartition (pairs : List (Nat × Option SyncBlockData)) :
    List Nat × List (Nat × SyncBlockData) :=
  pairs.foldl localPartStep ([], [])

/-- The fold of `new_sub_task` inserting each fetched block into the
result map keyed by the block's own id (with no execution info). -/
def insertFetched (m : List (Nat × SyncBlockData))
    (fetched : List (Block × Option Nat)) : List (Nat × SyncBlockData) :=
  fetched.foldl (fun m2 bp => assocPut m2 bp.1.id ⟨bp.1, none, bp.2⟩) m

def getBlockByIdErrM : String := "Get block by id failed"

/-- The re-ordering pass of `new_sub_task`: remove each requested id from
the result map in the original request order; a missing id fails the
whole step. -/
def collectInOrder (m : List (Nat × SyncBlockData)) :
    List Nat → RRes (List SyncBlockData)
  | [] => .ok []
  | i :: rest =>
    match assocGet m i with
    | none => .err getBlockByIdErrM
    | some d =>
      match collectInOrder (assocDel m i) rest with
      | .err e => .err e
      | .ok l => .ok (d :: l)

/-- The `block_ids` batch read at the current cursor inside
`new_sub_task`. -/
def BlockSyncTask.batchIds (t : BlockSyncTask) : List Nat :=
  t.accumulator.get_leaves t.start_number t.batch_size

/-- The conditional fetch of `new_sub_task`: keep the local result map
when nothing is missing, otherwise fetch the missing identifiers and fold
the fetched blocks into the map. -/
def fetchAndMerge (fetcher : List Nat → RRes (List (Block × Option Nat)))
    (pr : List Nat × List (Nat × SyncBlockData)) :
    RRes (List (Nat × SyncBlockData)) :=
  if pr.1.isEmpty then .ok pr.2
  else
    match fetcher pr.1 with
    | .err e => .err e
    | .ok fetched => .ok (insertFetched pr.2 fetched)

/-- `BlockSyncTask::new_sub_task` (one batch step): read the batch of leaf
identifiers; with local-first enabled query the local store, fetch the
remainder from the network, and re-order the merged map back into the
request order; with local-first disabled fetch the whole batch. -/
def BlockSyncTask.new_sub_task (t : BlockSyncTask) :
    RRes (List SyncBlockData) :=
  if t.batchIds.isEmpty then .ok []
  else if t.check_local_store then
    match t.local_store t.batchIds with
    | .err e => .err e
    | .ok block_with_info =>
      match fetchAndMerge t.fetcher
          (localPartition (t.batchIds.zip block_with_info)) with
      | .err e => .err e
      | .ok result_map => collectInOrder result_map t.batchIds
  else
    match t.fetcher t.batchIds with
    | .err e => .err e
    | .ok fetched => .ok (fetched.map (fun bp => ⟨bp.1, none, bp.2⟩))

/-- Every binding of the result map carries the block whose id is its key. -/
def mapKeysOk (m : List (Nat × SyncBlockData)) : Prop :=
  ∀ p ∈ m, p.2.block.id = p.1

/-- Each local reply slot, when present, holds the block requested by the
identifier it was zipped with (the LocalStore contract, checked on a
concrete zipped batch). -/
def localConsistentB (pairs : List (Nat × Option SyncBlockData)) : Bool :=
  pairs.all (fun p =>
    match p.2 with
    | some d => d.block.id == p.1
    | none => true)

/-- No slot of the zipped batch resolves the target id locally. -/
def noneAtB (pairs : List (Nat × Option SyncBlockData))
    (target : Nat) : Bool :=
  pairs.all (fun p => !(p.1 == target) || p.2.isNone)

/-- No fetched block carries the target id. -/
def fetchedLacksB (fetched : List (Block × Option Nat))
    (target : Nat) : Bool :=
  fetched.all (fun bp => !(bp.1.id == target))

theorem assocGet_mem {κ α : Type} [DecidableEq κ]
    (m : List (κ × α)) (k : κ) (v : α)
    (h : assocGet m k = some v) : (k, v) ∈ m := by
  induction m with
  | nil => cases h
  | cons p rest ih =>
    obtain ⟨k2, v2⟩ := p
    unfold assocGet at h
    by_cases hk : k2 = k
    · rw [if_pos hk] at h
      injection h with h2
      subst hk
      subst h2
      exact List.mem_cons_self _ _
    · rw [if_neg hk] at h
      exact List.mem_cons_of_mem _ (ih h)

theorem mem_assocDel {κ α : Type} [DecidableEq κ]
    (m : List (κ × α)) (k : κ) (p : κ × α)
    (h : p ∈ assocDel m k) : p ∈ m := by
  induction m with
  | nil => cases h
  | cons q rest ih =>
    obtain ⟨k2, v2⟩ := q
    unfold assocDel at h
    by_cases hk : k2 = k
    · rw [if_pos hk] at h
      exact List.mem_cons_of_mem _ h
    · rw [if_neg hk] at h
      rcases List.mem_cons.mp h with h2 | h2
      · exact h2 ▸ List.mem_cons_self _ _
      · exact List.mem_cons_of_mem _ (ih h2)

theorem mem_assocPut {κ α : Type} [DecidableEq κ]
    (m : List (κ × α)) (k : κ) (v : α) (p : κ × α)
    (h : p ∈ assocPut m k v) : p = (k, v) ∨ p ∈ m := by
  induction m with
  | nil =>
    unfold assocPut at h
    rcases List.mem_cons.mp h with h2 | h2
    · exact Or.inl h2
    · cases h2
  | cons q rest ih =>
    obtain ⟨k2, v2⟩ := q
    unfold assocPut at h
    by_cases hk : k2 = k
    · rw [if_pos hk] at h
      rcases List.mem_cons.mp h with h2 | h2
      · exact Or.inl h2
      · exact Or.inr (List.mem_cons_of_mem _ h2)
    · rw [if_neg hk] at h
      rcases List.mem_cons.mp h with h2 | h2
      · exact Or.inr (h2 ▸ List.mem_cons_self _ _)
      · rcases ih h2 with h3 | h3
        · exact Or.inl h3
        · exact Or.inr (List.mem_cons_of_mem _ h3)

theorem assocGet_none_of_not_key {κ α : Type} [DecidableEq κ]
    (m : List (κ × α)) (k : κ)
    (h : k ∉ m.map Prod.fst) : assocGet m k = none := by
  induction m with
  | nil => rfl
  | cons q rest ih =>
    obtain ⟨k2, v2⟩ := q
    simp only [List.map, List.mem_cons] at h
    push_neg at h
    unfold assocGet
    rw [if_neg (fun he => h.1 he.symm)]
    exact ih h.2

theorem key_of_assocPut {κ α : Type} [DecidableEq κ]
    (m : List (κ × α)) (k : κ) (v : α) (k2 : κ)
    (h : k2 ∈ (assocPut m k v).map Prod.fst) :
    k2 = k ∨ k2 ∈ m.map Prod.fst := by
  rcases List.mem_map.mp h with ⟨p, hp, hfst⟩
  rcases mem_assocPut m k v p hp with h2 | h2
  · left
    rw [← hfst, h2]
  · right
    exact List.mem_map.mpr ⟨p, h2, hfst⟩

theorem key_of_assocDel {κ α : Type} [DecidableEq κ]
    (m : List (κ × α)) (k : κ) (k2 : κ)
    (h : k2 ∈ (assocDel m k).map Prod.fst) : k2 ∈ m.map Prod.fst := by
  rcases List.mem_map.mp h with ⟨p, hp, hfst⟩
  exact List.mem_map.mpr ⟨p, mem_assocDel m k p hp, hfst⟩

theorem mapKeysOk_assocPut (m : List (Nat × SyncBlockData)) (k : Nat)
    (v : SyncBlockData) (hm : mapKeysOk m) (hv : v.block.id = k) :
    mapKeysOk (assocPut m k v) := by
  intro p hp
  rcases mem_assocPut m k v p hp with h2 | h2
  · rw [h2]
    exact hv
  · exact hm p h2

theorem mapKeysOk_assocDel (m : List (Nat × SyncBlockData)) (k : Nat)
    (hm : mapKeysOk m) : mapKeysOk (assocDel m k) :=
  fun p hp => hm p (mem_assocDel m k p hp)

theorem localPartition_fold_keysOk
    (pairs : List (Nat × Option SyncBlockData))
    (hcons : ∀ p ∈ pairs, ∀ d, p.2 = some d → d.block.id = p.1) :
    ∀ acc : List Nat × List (Nat × SyncBlockData), mapKeysOk acc.2 →
      mapKeysOk (pairs.foldl localPartStep acc).2 := by
  induction pairs with
  | nil => intro acc hacc; exact hacc
  | cons p rest ih =>
    intro acc hacc
    have hrest : ∀ q ∈ rest, ∀ d, q.2 = some d → d.block.id = q.1 :=
      fun q hq => hcons q (List.mem_cons_of_mem _ hq)
    refine ih hrest (localPartStep acc p) ?_
    unfold localPartStep
    obtain ⟨i, od⟩ := p
    cases od with
    | none => exact hacc
    | some d =>
      exact mapKeysOk_assocPut acc.2 i d hacc
        (hcons (i, some d) (List.mem_cons_self _ _) d rfl)

theorem localPartition_fold_keys
    (pairs : List (Nat × Option SyncBlockData)) :
    ∀ acc : List Nat × List (Nat × SyncBlockData), ∀ k,
      k ∈ (pairs.foldl localPartStep acc).2.map Prod.fst →
      k ∈ acc.2.map Prod.fst ∨
        ∃ p ∈ pairs, p.1 = k ∧ ∃ d, p.2 = some d := by
  induction pairs with
  | nil => intro acc k h; exact Or.inl h
  | cons p rest ih =>
    intro acc k h
    rcases ih (localPartStep acc p) k h with h2 | h2
    · unfold localPartStep at h2
      obtain ⟨i, od⟩ := p
      cases od with
      | none => exact Or.inl h2
      | some d =>
        rcases key_of_assocPut acc.2 i d k h2 with h3 | h3
        · exact Or.inr ⟨(i, some d), List.mem_cons_self _ _, h3.symm, d, rfl⟩
        · exact Or.inl h3
    · rcases h2 with ⟨q, hq, hqk, hqd⟩
      exact Or.inr ⟨q, List.mem_cons_of_mem _ hq, hqk, hqd⟩

theorem insertFetched_keysOk (fetched : List (Block × Option Nat)) :
    ∀ m : List (Nat × SyncBlockData), mapKeysOk m →
      mapKeysOk (insertFetched m fetched) := by
  induction fetched with
  | nil => intro m hm; exact hm
  | cons bp rest ih =>
    intro m hm
    exact ih _ (mapKeysOk_assocPut m bp.1.id ⟨bp.1, none, bp.2⟩ hm rfl)

theorem insertFetched_keys (fetched : List (Block × Option Nat)) :
    ∀ m : List (Nat × SyncBlockData), ∀ k,
      k ∈ (insertFetched m fetched).map Prod.fst →
      k ∈ m.map Prod.fst ∨ k ∈ fetched.map (fun bp => bp.1.id) := by
  induction fetched with
  | nil => intro m k h; exact Or.inl h
  | cons bp rest ih =>
    intro m k h
    rcases ih _ k h with h2 | h2
    · rcases key_of_assocPut m bp.1.id ⟨bp.1, none, bp.2⟩ k h2 with h3 | h3
      · right
        rw [h3]
        exact List.mem_map.mpr ⟨bp, List.mem_cons_self _ _, rfl⟩
      · exact Or.inl h3
    · right
      rcases List.mem_map.mp h2 with ⟨q, hq, hqk⟩
      exact List.mem_map.mpr ⟨q, List.mem_cons_of_mem _ hq, hqk⟩

theorem collectInOrder_ok_map (ids : List Nat) :
    ∀ m out, mapKeysOk m → collectInOrder m ids = .ok out →
      out.map (fun d => d.block.id) = ids := by
  induction ids with
  | nil =>
    intro m out _ h
    unfold collectInOrder at h
    injection h with h2
    rw [← h2]
    rfl
  | cons i rest ih =>
    intro m out hm h
    unfold collectInOrder at h
    split at h
    · cases h
    · next d hg =>
      split at h
      · cases h
      · next l hr =>
        injection h with h2
        have hd : d.block.id = i := hm (i, d) (assocGet_mem m i d hg)
        have htl := ih (assocDel m i) l (mapKeysOk_assocDel m i hm) hr
        rw [← h2]
        simp [hd, htl]

theorem collectInOrder_missing (ids : List Nat) :
    ∀ m i, i ∈ ids → i ∉ m.map Prod.fst →
      (collectInOrder m ids).isOk = false := by
  induction ids with
  | nil => intro m i h; cases h
  | cons j rest ih =>
    intro m i hmem hout
    unfold collectInOrder
    split
    · rfl
    · next d hg =>
      rcases List.mem_cons.mp hmem with h2 | h2
      · subst h2
        rw [assocGet_none_of_not_key m i hout] at hg
        cases hg
      · have hrec := ih (assocDel m j) i h2
          (fun hk => hout (key_of_assocDel m j i hk))
        split
        · rfl
        · next l hr =>
          rw [hr] at hrec
          exact absurd hrec (by simp [RRes.isOk])

theorem isEmpty_false_of_mem {α : Type} {l : List α} {a : α} (h : a ∈ l) :
    l.isEmpty = false := by
  cases l with
  | nil => cases h
  | cons x xs => rfl

theorem localConsistentB_sound (pairs : List (Nat × Option SyncBlockData))
    (h : localConsistentB pairs = true) :
    ∀ p ∈ pairs, ∀ d, p.2 = some d → d.block.id = p.1 := by
  intro p hp d hd
  have h2 := List.all_eq_true.mp h p hp
  obtain ⟨i, od⟩ := p
  simp only at hd
  subst hd
  exact eq_of_beq h2

theorem noneAtB_sound (pairs : List (Nat × Option SyncBlockData))
    (target : Nat) (h : noneAtB pairs target = true) :
    ∀ p ∈ pairs, p.1 = target → p.2 = none := by
  intro p hp heq
  have h2 := List.all_eq_true.mp h p hp
  obtain ⟨i, od⟩ := p
  simp only at heq ⊢
  subst heq
  cases od with
  | none => rfl
  | some d => simp [noneAtB] at h2

theorem fetchedLacksB_sound (fetched : List (Block × Option Nat))
    (target : Nat) (h : fetchedLacksB fetched target = true) :
    target ∉ fetched.map (fun bp => bp.1.id) := by
  intro hmem
  rcases List.mem_map.mp hmem with ⟨bp, hbp, hid⟩
  have h2 := List.all_eq_true.mp h bp hbp
  rw [hid] at h2
  simp at h2

theorem fetchAndMerge_keysOk
    (fetcher : List Nat → RRes (List (Block × Option Nat)))
    (pr : List Nat × List (Nat × SyncBlockData))
    (rm : List (Nat × SyncBlockData))
    (hpr : mapKeysOk pr.2) (h : fetchAndMerge fetcher pr = .ok rm) :
    mapKeysOk rm := by
  unfold fetchAndMerge at h
  split at h
  · injection h with h2
    rw [← h2]
    exact hpr
  · split at h
    · injection h
    · next fetched heq =>
      injection h with h2
      rw [← h2]
      exact insertFetched_keysOk fetched pr.2 hpr

theorem fetchAndMerge_keys
    (fetcher : List Nat → RRes (List (Block × Option Nat)))
    (pr : List Nat × List (Nat × SyncBlockData))
    (rm : List (Nat × SyncBlockData)) (k : Nat)
    (h : fetchAndMerge fetcher pr = .ok rm)
    (hk : k ∈ rm.map Prod.fst) :
    k ∈ pr.2.map Prod.fst ∨
      ∃ fetched, fetcher pr.1 = .ok fetched ∧
        k ∈ fetched.map (fun bp => bp.1.id) := by
  unfold fetchAndMerge at h
  split at h
  · injection h with h2
    rw [← h2] at hk
    exact Or.inl hk
  · split at h
    · injection h
    · next fetched heq =>
      injection h with h2
      rw [← h2] at hk
      rcases insertFetched_keys fetched pr.2 k hk with h3 | h3
      · exact Or.inl h3
      · exact Or.inr ⟨fetched, heq, h3⟩

/-- C1: for a batch step with local-first enabled, the list returned by
`new_sub_task` is ordered exactly as the leaf identifiers read from the
accumulator (given the LocalStore contract that each local hit carries
the block it was requested for), and an identifier resolved neither by
the local store nor by the fetch makes the whole step fail with an error
instead of returning a partial batch. -/
theorem new_sub_task_order_and_total (t : BlockSyncTask)
    (hcl : t.check_local_store = true) :
    (∀ res, t.local_store t.batchIds = .ok res →
       localConsistentB (t.batchIds.zip res) = true →
       ∀ out, t.new_sub_task = .ok out →
         out.map (fun d => d.block.id) = t.batchIds) ∧
    (∀ i res, i ∈ t.batchIds →
       t.local_store t.batchIds = .ok res →
       noneAtB (t.batchIds.zip res) i = true →
       (∀ fetched,
          t.fetcher (localPartition (t.batchIds.zip res)).1 = .ok fetched →
          fetchedLacksB fetched i = true) →
       t.new_sub_task.isOk = false) := by
  constructor
  · intro res hres hcons out hout
    unfold BlockSyncTask.new_sub_task at hout
    by_cases hemp : t.batchIds.isEmpty = true
    · rw [if_pos hemp] at hout
      injection hout with h2
      rw [← h2]
      have hnil : t.batchIds = [] := by
        cases hb : t.batchIds with
        | nil => rfl
        | cons x xs => rw [hb] at hemp; cases hemp
      rw [hnil]
      rfl
    · rw [if_neg hemp, if_pos hcl] at hout
      split at hout
      · next e heq =>
        rw [hres] at heq
        cases heq
      · next bwi heq =>
        rw [hres] at heq
        injection heq with hbwi
        subst hbwi
        split at hout
        · cases hout
        · next rm heq2 =>
          have hcons2 := localConsistentB_sound _ hcons
          have hlp : mapKeysOk (localPartition (t.batchIds.zip res)).2 :=
            localPartition_fold_keysOk _ hcons2 ([], [])
              (fun p hp => absurd hp (List.not_mem_nil p))
          have hrm : mapKeysOk rm :=
            fetchAndMerge_keysOk t.fetcher _ rm hlp heq2
          exact collectInOrder_ok_map t.batchIds rm out hrm hout
  · intro i res hi hres hnone hfetch
    have hemp : t.batchIds.isEmpty = false := isEmpty_false_of_mem hi
    unfold BlockSyncTask.new_sub_task
    rw [if_neg (by simp [hemp]), if_pos hcl]
    split
    · rfl
    · next bwi heq =>
      rw [hres] at heq
      injection heq with hbwi
      subst hbwi
      split
      · rfl
      · next rm heq2 =>
        apply collectInOrder_missing t.batchIds rm i hi
        intro hk
        rcases fetchAndMerge_keys t.fetcher _ rm i heq2 hk with h3 | h3
        · rcases localPartition_fold_keys (t.batchIds.zip res)
              ([], []) i h3 with h4 | h4
          · cases h4
          · rcases h4 with ⟨p, hp, hpk, d, hpd⟩
            have h5 := noneAtB_sound _ i hnone p hp hpk
            rw [hpd] at h5
            cases h5
        · rcases h3 with ⟨fetched, hfeq, hmemf⟩
          exact fetchedLacksB_sound fetched i (hfetch fetched hfeq) hmemf

def exBlock (i : Nat) : Block := ⟨i, 100 + i, 1⟩

/-- A local store resolving exactly identifiers 1 and 3. -/
def exMergeLocalStore : List Nat → RRes (List (Option SyncBlockData)) :=
  fun req =>
    .ok (req.map (fun i =>
      if i = 1 ∨ i = 3 then some ⟨exBlock i, none, none⟩ else none))

/-- A fetcher answering every requested identifier from peer 9. -/
def exMergeFetcher : List Nat → RRes (List (Block × Option Nat)) :=
  fun req => .ok (req.map (fun i => (exBlock i, some 9)))

/-- Local-first task over leaves 1, 2, 3 where 1 and 3 are local hits and
2 must be fetched. -/
def exMergeTask : BlockSyncTask :=
  { accumulator := ⟨[1, 2, 3]⟩,
    start_number := 0,
    fetcher := exMergeFetcher,
    check_local_store := true,
    local_store := exMergeLocalStore,
    batch_size := 3 }

/-- The local replies for the batch of `exMergeTask`. -/
def exMergeRes : List (Option SyncBlockData) :=
  [some ⟨exBlock 1, none, none⟩, none, some ⟨exBlock 3, none, none⟩]

/-- The merged batch `exMergeTask` produces. -/
def exMergeOut : List SyncBlockData :=
  [⟨exBlock 1, none, none⟩, ⟨exBlock 2, none, some 9⟩,
   ⟨exBlock 3, none, none⟩]

/-- C1 witness: with leaves 1, 2, 3, local hits for 1 and 3 and a fetched
2, the merged batch is ordered exactly as the identifiers 1, 2, 3. -/
theorem new_sub_task_order_witness :
    exMergeOut.map (fun d => d.block.id) = exMergeTask.batchIds :=
  (new_sub_task_order_and_total exMergeTask rfl).1 exMergeRes (by decide)
    (by decide) exMergeOut (by decide)

/-- Failure classification of a chain apply (verification) call:
the distinguished future-block case, any other `ConnectBlockError`, or a
failure that does not downcast to a `ConnectBlockError`. -/
inductive VerifyFailure where
  | futureBlock
  | connectErr (reason : String)
  | otherErr (msg : String)
deriving DecidableEq

/-- Errors surfaced by the collector. -/
inductive SyncErr where
  | futureBlock
  | verifyErr (reason : String)
  | otherErr (msg : String)
  | saveFailedErr (msg : String)
  | connectFailedErr (msg : String)
deriving DecidableEq

/-- Modelled from the spec: the Chain collaborator (external
`starcoin_chain::BlockChain`): the grown block list, the external clock
view, the injected verification outcome of an apply call (parameterised
by whether the reduced basic verifier is used), the injected outcomes of
`connect` and of `save_failed_block`, and the failed-block records the
chain's storage holds. -/
structure BlockChain where
  blocks : List Block
  time : Nat
  verify : Bool → Block → Option VerifyFailure
  connectCheck : Block → Option String
  saveFailedCheck : Block → Option String
  failedBlocks : List (Nat × Block × Option Nat × String)

/-- Modelled from the spec: the chain's monotonic cumulative total
difficulty. -/
def BlockChain.get_total_difficulty (c : BlockChain) : Nat :=
  c.blocks.foldl (fun a b => a + b.difficulty) 0

/-- `BlockCollector`: the node's current best block info, the in-progress
chain, the (modelled) event-sink outcome, the events and peer reports
already emitted, the trace of verification (apply) calls, and the
pow-strictness flag. -/
structure BlockCollector where
  current_block_info : BlockInfo
  chain : BlockChain
  eventOk : Block → Bool
  sentEvents : List Nat
  reportedPeers : List (Nat × String)
  verifyCalls : List Nat
  skip_pow_verify : Bool

/-- `BlockCollector::apply_block`: run verification (`apply`, or
`apply_with_verifier` under the strictness flag; the call is recorded in
the verification trace).  A future-block failure propagates as the
distinguished error with no side effect; another connect failure first
persists the failed block with its origin peer and reason (a persistence
failure propagating instead) and then reports the origin peer when known,
before the error is returned; a failure that is not a connect error
propagates untouched. -/
def BlockCollector.apply_block (c : BlockCollector) (block : Block)
    (peer_id : Option Nat) : Except SyncErr Unit × BlockCollector :=
  match c.chain.verify c.skip_pow_verify block with
  | none =>
    (.ok (), { c with
      verifyCalls := c.verifyCalls ++ [block.id],
      chain := { c.chain with blocks := c.chain.blocks ++ [block] } })
  | some .futureBlock =>
    (.error .futureBlock,
     { c with verifyCalls := c.verifyCalls ++ [block.id] })
  | some (.connectErr r) =>
    match c.chain.saveFailedCheck block with
    | some m =>
      (.error (.saveFailedErr m),
       { c with verifyCalls := c.verifyCalls ++ [block.id] })
    | none =>
      match peer_id with
      | some p =>
        (.error (.verifyErr r),
         { c with
           verifyCalls := c.verifyCalls ++ [block.id],
           chain := { c.chain with failedBlocks :=
             c.chain.failedBlocks ++ [(block.id, block, peer_id, r)] },
           reportedPeers := c.reportedPeers ++ [(p, r)] })
      | none =>
        (.error (.verifyErr r),
         { c with
           verifyCalls := c.verifyCalls ++ [block.id],
           chain := { c.chain with failedBlocks :=
             c.chain.failedBlocks ++ [(block.id, block, peer_id, r)] } })
  | some (.otherErr m) =>
    (.error (.otherErr m),
     { c with verifyCalls := c.verifyCalls ++ [block.id] })

/-- `stream_task::CollectorState`. -/
inductive CollectorState where
  | Need
  | Enough
deriving DecidableEq

/-- `chain.time_service().adjust(timestamp)` on the collector's chain. -/
def adjustTime (c1 : BlockCollector) (ts : Nat) : BlockCollector :=
  { c1 with chain := { c1.chain with time := ts } }

/-- `BlockCollector::collect`: an item carrying a prior execution result
is connected directly onto the chain (no verification); otherwise the
block is applied, the clock view advanced to its timestamp and, when the
grown chain's total difficulty beats the node's current best, a
best-effort connected event is emitted (its failure is only logged).
Every successful path returns `CollectorState::Need`. -/
def BlockCollector.collect (c : BlockCollector) (item : SyncBlockData) :
    Except SyncErr CollectorState × BlockCollector :=
  match item.info with
  | some _ =>
    match c.chain.connectCheck item.block with
    | some m => (.error (.connectFailedErr m), c)
    | none =>
      (.ok .Need, { c with chain :=
        { c.chain with blocks := c.chain.blocks ++ [item.block] } })
  | none =>
    match c.apply_block item.block item.peer_id with
    | (.error e, c1) => (.error e, c1)
    | (.ok _, c1) =>
      if (adjustTime c1 item.block.timestamp).chain.get_total_difficulty >
          c.current_block_info.total_difficulty then
        if (adjustTime c1 item.block.timestamp).eventOk item.block then
          (.ok .Need, { adjustTime c1 item.block.timestamp with
            sentEvents := c1.sentEvents ++ [item.block.id] })
        else (.ok .Need, adjustTime c1 item.block.timestamp)
      else (.ok .Need, adjustTime c1 item.block.timestamp)

/-- C6: when applying a fresh block fails with a verification error other
than the future-block classification, the failed block (with origin peer
and reason) is persisted and, when an origin peer is known, that peer is
reported - both visible in the state alongside the returned error - while
a failing persistence step propagates its own error instead (and then no
peer report happens); a future-block failure propagates as the
distinguished error with neither side effect performed. -/
theorem apply_block_failure_effects (c : BlockCollector) (block : Block)
    (peer_id : Option Nat) :
    (c.chain.verify c.skip_pow_verify block = some .futureBlock →
       c.apply_block block peer_id =
         (.error .futureBlock,
          { c with verifyCalls := c.verifyCalls ++ [block.id] })) ∧
    (∀ r, c.chain.verify c.skip_pow_verify block = some (.connectErr r) →
       (∀ m, c.chain.saveFailedCheck block = some m →
          c.apply_block block peer_id =
            (.error (.saveFailedErr m),
             { c with verifyCalls := c.verifyCalls ++ [block.id] })) ∧
       (c.chain.saveFailedCheck block = none →
          (c.apply_block block peer_id).1 = .error (.verifyErr r) ∧
          (c.apply_block block peer_id).2.chain.failedBlocks =
            c.chain.failedBlocks ++ [(block.id, block, peer_id, r)] ∧
          (∀ p, peer_id = some p →
             (c.apply_block block peer_id).2.reportedPeers =
               c.reportedPeers ++ [(p, r)]) ∧
          (peer_id = none →
             (c.apply_block block peer_id).2.reportedPeers =
               c.reportedPeers))) := by
  constructor
  · intro hv
    unfold BlockCollector.apply_block
    rw [hv]
  · intro r hv
    constructor
    · intro m hs
      unfold BlockCollector.apply_block
      rw [hv, hs]
    · intro hs
      unfold BlockCollector.apply_block
      rw [hv, hs]
      cases peer_id with
      | none =>
        refine ⟨rfl, rfl, ?_, fun _ => rfl⟩
        intro p hp
        exact Option.noConfusion hp
      | some q =>
        refine ⟨rfl, rfl, ?_, ?_⟩
        · intro p hp
          injection hp with h2
          subst h2
          rfl
        · intro hn
          exact Option.noConfusion hn

def badReasonM : String := "verification failed"

/-- A chain whose collaborators all succeed, with no blocks yet. -/
def exChainOk : BlockChain :=
  { blocks := [], time := 0,
    verify := fun _ _ => none,
    connectCheck := fun _ => none,
    saveFailedCheck := fun _ => none,
    failedBlocks := [] }

/-- A chain whose verification always fails with a plain connect error. -/
def exBadChain : BlockChain :=
  { exChainOk with verify := fun _ _ => some (.connectErr badReasonM) }

/-- A collector over the all-succeeding chain. -/
def exCollectorBase : BlockCollector :=
  { current_block_info := ⟨5⟩,
    chain := exChainOk,
    eventOk := fun _ => true,
    sentEvents := [],
    reportedPeers := [],
    verifyCalls := [],
    skip_pow_verify := false }

/-- A collector whose chain fails verification of every block. -/
def exFailCollector : BlockCollector :=
  { exCollectorBase with chain := exBadChain }

/-- C6 witness: a non-future verification failure with known origin peer 7
returns the verification error with the failed-block record and the peer
report both present in the final state. -/
theorem apply_block_failure_effects_witness :
    (exFailCollector.apply_block (exBlock 4) (some 7)).1 =
      .error (.verifyErr badReasonM) ∧
    (exFailCollector.apply_block (exBlock 4) (some 7)).2.chain.failedBlocks =
      exFailCollector.chain.failedBlocks ++
        [((exBlock 4).id, exBlock 4, some 7, badReasonM)] ∧
    (exFailCollector.apply_block (exBlock 4) (some 7)).2.reportedPeers =
      exFailCollector.reportedPeers ++ [(7, badReasonM)] := by
  have h := ((apply_block_failure_effects exFailCollector (exBlock 4)
      (some 7)).2 badReasonM rfl).2 rfl
  exact ⟨h.1, h.2.1, h.2.2.1 7 rfl⟩

/-- C7: an item that carries a pre-existing execution result is connected
directly onto the chain with no verification call (the verification trace
is unchanged on this path, whatever connect's outcome), extending the
chain by exactly one block on success; and every successful `collect`, on
either path, returns the still-need-more-input state. -/
theorem collect_connect_and_need :
    (∀ (c : BlockCollector) (item : SyncBlockData) (bi : BlockInfo),
       item.info = some bi →
       (c.collect item).2.verifyCalls = c.verifyCalls ∧
       (c.chain.connectCheck item.block = none →
          c.collect item =
            (.ok .Need, { c with chain :=
              { c.chain with
                blocks := c.chain.blocks ++ [item.block] } }))) ∧
    (∀ (c : BlockCollector) (item : SyncBlockData) st c2,
       c.collect item = (.ok st, c2) → st = .Need) := by
  constructor
  · intro c item bi hinfo
    constructor
    · unfold BlockCollector.collect
      rw [hinfo]
      rcases hc : c.chain.connectCheck item.block with _ | m
      · rfl
      · rfl
    · intro hc
      unfold BlockCollector.collect
      rw [hinfo, hc]
  · intro c item st c2 h
    unfold BlockCollector.collect at h
    split at h
    · split at h
      · injection h with h1 h2
        cases h1
      · injection h with h1 h2
        injection h1 with h3
        exact h3.symm
    · split at h
      · next e c1 heq =>
        injection h with h1 h2
        cases h1
      · next u c1 heq =>
        split at h
        · split at h
          · injection h with h1 h2
            injection h1 with h3
            exact h3.symm
          · injection h with h1 h2
            injection h1 with h3
            exact h3.symm
        · injection h with h1 h2
          injection h1 with h3
          exact h3.symm

/-- An item carrying a pre-existing execution result. -/
def exInfoItem : SyncBlockData := ⟨exBlock 4, some ⟨1⟩, none⟩

/-- C7 witness: collecting an already-executed item leaves the
verification trace unchanged and extends the chain by exactly that block,
returning the still-need-more-input state. -/
theorem collect_connect_and_need_witness :
    (exCollectorBase.collect exInfoItem).2.verifyCalls =
      exCollectorBase.verifyCalls ∧
    exCollectorBase.collect exInfoItem =
      (.ok .Need, { exCollectorBase with chain :=
        { exCollectorBase.chain with
          blocks := exCollectorBase.chain.blocks ++ [exInfoItem.block] } }) := by
  have h := collect_connect_and_need.1 exCollectorBase exInfoItem ⟨1⟩ rfl
  exact ⟨h.1, h.2 rfl⟩
